import Mathlib

/-!
Shallow embedding of the client-side synchronization core of the
repository: the bounded cache (`useCache`), the synchronizer (`useSync`
together with `retryRequest` from `useNetwork`), and the reconnecting
channel (`useWebSocket`).  Timestamps are naturals (milliseconds);
the JS `Map` is embedded as an association list whose order of entries
mirrors the map's insertion order; the JS access-order array is a
`List String` with the most recently touched key first.
-/

set_option autoImplicit false

namespace Spec2Proof

/-! ## Association-list embedding of the JS `Map` -/

def alHas {E : Type} (m : List (String × E)) (k : String) : Bool :=
  m.any (fun p => p.1 = k)

def alGet {E : Type} (m : List (String × E)) (k : String) : Option E :=
  (m.find? (fun p => p.1 = k)).map Prod.snd

/-- `Map.set`: replace in place when the key is present, else append. -/
def alSet {E : Type} (m : List (String × E)) (k : String) (v : E) :
    List (String × E) :=
  if alHas m k then m.map (fun p => if p.1 = k then (k, v) else p)
  else m ++ [(k, v)]

/-- `Map.delete`: drop every entry with the given key. -/
def alDelete {E : Type} (m : List (String × E)) (k : String) :
    List (String × E) :=
  m.filter (fun p => p.1 ≠ k)

/-! ## Bounded cache (`useCache`, src/unnamed/part_006) -/

structure CacheEntry (V : Type) where
  data : V
  timestamp : Nat
  expiresAt : Nat
  deriving Repr, DecidableEq

structure CacheConfig (V : Type) where
  ttl : Nat
  maxSize : Nat
  hasStorage : Bool
  validate : Option (V → Bool)

structure CacheState (V : Type) where
  cache : List (String × CacheEntry V)
  accessOrder : List String
  storageKeys : List String
  deriving Repr, DecidableEq

def emptyCacheState (V : Type) : CacheState V := ⟨[], [], []⟩

/-- `storage.setItem` tracked at the level of present keys. -/
def stAdd {V : Type} (cfg : CacheConfig V) (st : List String) (k : String) :
    List String :=
  if cfg.hasStorage then (if k ∈ st then st else st ++ [k]) else st

/-- `storage.removeItem` tracked at the level of present keys. -/
def stRemove {V : Type} (cfg : CacheConfig V) (st : List String) (k : String) :
    List String :=
  if cfg.hasStorage then st.filter (fun s => s ≠ k) else st

/-- `updateAccessOrder`: move `key` to the front of the recency list. -/
def updateAccessOrder (order : List String) (key : String) : List String :=
  key :: order.filter (fun k => k ≠ key)

/-- The `while (size > maxSize)` body of `enforceSizeLimit`, recursing on the
reversed access order (`Array.prototype.pop` removes the last element, which
is the head of the reversal).  The source loop would spin forever if the
order ran out while the map was still over the bound; that situation is
unreachable because every cached key occurs in the access order, and the
embedding simply stops there. -/
def evictLoop {V : Type} (cfg : CacheConfig V) :
    List (String × CacheEntry V) → List String → List String →
    List (String × CacheEntry V) × List String × List String
  | cache, [], st => (cache, [], st)
  | cache, k :: rest, st =>
    if cache.length > cfg.maxSize then
      evictLoop cfg (alDelete cache k) rest (stRemove cfg st k)
    else (cache, k :: rest, st)

def enforceSizeLimit {V : Type} (cfg : CacheConfig V)
    (cache : List (String × CacheEntry V)) (order : List String)
    (st : List String) :
    List (String × CacheEntry V) × List String × List String :=
  ((evictLoop cfg cache order.reverse st).1,
   (evictLoop cfg cache order.reverse st).2.1.reverse,
   (evictLoop cfg cache order.reverse st).2.2)

/-- The body of `set` once validation has passed: store the entry with
`expiresAt = now + ttl`, touch the recency order, enforce the size bound,
then write through to storage. -/
def setRaw {V : Type} (cfg : CacheConfig V) (now : Nat) (key : String)
    (value : V) (s : CacheState V) : CacheState V :=
  ⟨(enforceSizeLimit cfg (alSet s.cache key ⟨value, now, now + cfg.ttl⟩)
      (updateAccessOrder s.accessOrder key) s.storageKeys).1,
   (enforceSizeLimit cfg (alSet s.cache key ⟨value, now, now + cfg.ttl⟩)
      (updateAccessOrder s.accessOrder key) s.storageKeys).2.1,
   stAdd cfg (enforceSizeLimit cfg (alSet s.cache key ⟨value, now, now + cfg.ttl⟩)
      (updateAccessOrder s.accessOrder key) s.storageKeys).2.2 key⟩

/-- `set`: a configured validator that rejects the value aborts the call
(the thrown error is caught and reported); otherwise `setRaw`. -/
def setOp {V : Type} (cfg : CacheConfig V) (now : Nat) (key : String)
    (value : V) (s : CacheState V) : CacheState V :=
  if (match cfg.validate with | some f => f value | none => true) then
    setRaw cfg now key value s
  else s

/-- `get`: absent on a miss; on an expired hit (`now > expiresAt`) delete
from the map and storage (the access order is left untouched, as in the
source); on a live hit touch the recency order and return the data. -/
def getOp {V : Type} (cfg : CacheConfig V) (now : Nat) (key : String)
    (s : CacheState V) : Option V × CacheState V :=
  match alGet s.cache key with
  | none => (none, s)
  | some entry =>
    if now > entry.expiresAt then
      (none, ⟨alDelete s.cache key, s.accessOrder,
              stRemove cfg s.storageKeys key⟩)
    else
      (some entry.data, ⟨s.cache, updateAccessOrder s.accessOrder key,
                         s.storageKeys⟩)

/-- `remove`: unconditional delete from map, recency order and storage. -/
def removeOp {V : Type} (cfg : CacheConfig V) (key : String)
    (s : CacheState V) : CacheState V :=
  ⟨alDelete s.cache key, s.accessOrder.filter (fun k => k ≠ key),
   stRemove cfg s.storageKeys key⟩

/-- `has`: same expiry test as `get`; an expired hit is removed via
`remove`; a live hit leaves the state untouched. -/
def hasOp {V : Type} (cfg : CacheConfig V) (now : Nat) (key : String)
    (s : CacheState V) : Bool × CacheState V :=
  match alGet s.cache key with
  | none => (false, s)
  | some entry =>
    if now > entry.expiresAt then (false, removeOp cfg key s)
    else (true, s)

/-- The cache operations the size-bound claim quantifies over. -/
inductive CacheOp (V : Type) where
  | setE (now : Nat) (key : String) (value : V)
  | getE (now : Nat) (key : String)

def cacheStep {V : Type} (cfg : CacheConfig V) (s : CacheState V) :
    CacheOp V → CacheState V
  | .setE now k v => setOp cfg now k v s
  | .getE now k => (getOp cfg now k s).2

def runOps {V : Type} (cfg : CacheConfig V) (ops : List (CacheOp V))
    (s : CacheState V) : CacheState V :=
  ops.foldl (cacheStep cfg) s

/-! ## Association-list lemmas -/

theorem alHas_iff_mem {E : Type} (m : List (String × E)) (k : String) :
    alHas m k = true ↔ k ∈ m.map Prod.fst := by
  rw [alHas, List.any_eq_true]
  constructor
  · rintro ⟨p, hp, hpk⟩
    rw [List.mem_map]
    exact ⟨p, hp, of_decide_eq_true hpk⟩
  · intro h
    rw [List.mem_map] at h
    obtain ⟨p, hp, hpk⟩ := h
    exact ⟨p, hp, decide_eq_true hpk⟩

theorem alHas_append {E : Type} (m m' : List (String × E)) (k : String) :
    alHas (m ++ m') k = (alHas m k || alHas m' k) := by
  simp [alHas, List.any_append]

theorem alHas_delete_self {E : Type} (m : List (String × E)) (k : String) :
    alHas (alDelete m k) k = false := by
  simp [alHas, alDelete, List.any_eq_true, List.mem_filter]

theorem alHas_delete_of_ne {E : Type} {m : List (String × E)} {k k' : String}
    (hne : k' ≠ k) (h : alHas m k' = true) :
    alHas (alDelete m k) k' = true := by
  simp only [alHas, alDelete, List.any_eq_true, List.mem_filter] at h ⊢
  obtain ⟨p, hp, hpk⟩ := h
  exact ⟨p, ⟨hp, by simp [of_decide_eq_true hpk, hne]⟩, hpk⟩

theorem alHas_of_delete {E : Type} {m : List (String × E)} {k k' : String}
    (h : alHas (alDelete m k) k' = true) :
    alHas m k' = true ∧ k' ≠ k := by
  simp only [alHas, alDelete, List.any_eq_true, List.mem_filter] at h ⊢
  obtain ⟨p, ⟨hp, hpk⟩, hk'⟩ := h
  refine ⟨⟨p, hp, hk'⟩, ?_⟩
  have h1 : p.1 ≠ k := by simpa using hpk
  have h2 : p.1 = k' := of_decide_eq_true hk'
  exact h2 ▸ h1

theorem alSet_of_not_has {E : Type} {m : List (String × E)} {k : String}
    (v : E) (h : alHas m k = false) : alSet m k v = m ++ [(k, v)] := by
  simp [alSet, h]

theorem alHas_of_set {E : Type} {m : List (String × E)} {k k' : String}
    {v : E} (h : alHas (alSet m k v) k' = true) :
    k' = k ∨ alHas m k' = true := by
  rw [alSet] at h
  by_cases hm : alHas m k = true
  · rw [if_pos hm] at h
    rw [alHas, List.any_eq_true] at h
    obtain ⟨q, hq, hqk⟩ := h
    rw [List.mem_map] at hq
    obtain ⟨p, hp, hpq⟩ := hq
    by_cases hpk : p.1 = k
    · rw [if_pos hpk] at hpq
      subst hpq
      exact Or.inl (of_decide_eq_true hqk).symm
    · rw [if_neg hpk] at hpq
      subst hpq
      refine Or.inr ?_
      rw [alHas, List.any_eq_true]
      exact ⟨p, hp, hqk⟩
  · rw [if_neg hm, alHas_append, Bool.or_eq_true] at h
    rcases h with h1 | h2
    · exact Or.inr h1
    · simp only [alHas, List.any_cons, List.any_nil, Bool.or_false,
        decide_eq_true_eq] at h2
      exact Or.inl h2.symm

theorem alDelete_append {E : Type} (m m' : List (String × E)) (k : String) :
    alDelete (m ++ m') k = alDelete m k ++ alDelete m' k := by
  simp [alDelete, List.filter_append]

theorem alDelete_of_not_has {E : Type} {m : List (String × E)} {k : String}
    (h : alHas m k = false) : alDelete m k = m := by
  rw [alDelete, List.filter_eq_self]
  intro p hp
  simp only [alHas, List.any_eq_true, not_exists] at h
  have := (List.any_eq_false).mp h p hp
  simpa using this

theorem alDelete_length {E : Type} {m : List (String × E)} {k : String}
    (hnd : (m.map Prod.fst).Nodup) (h : alHas m k = true) :
    (alDelete m k).length + 1 = m.length := by
  induction m with
  | nil => simp [alHas] at h
  | cons p t ih =>
    simp only [List.map_cons, List.nodup_cons] at hnd
    by_cases hpk : p.1 = k
    · have ht : alHas t k = false := by
        rw [← Bool.not_eq_true, alHas_iff_mem]
        exact hpk ▸ hnd.1
      have h1 : alDelete (p :: t) k = alDelete t k := by
        simp [alDelete, List.filter_cons, hpk]
      rw [h1, alDelete_of_not_has ht]
      simp
    · have hh : alHas t k = true := by
        rw [alHas, List.any_eq_true] at h
        obtain ⟨q, hq, hqk⟩ := h
        rcases List.mem_cons.mp hq with rfl | hq'
        · exact absurd (of_decide_eq_true hqk) hpk
        · rw [alHas, List.any_eq_true]
          exact ⟨q, hq', hqk⟩
      have h1 : alDelete (p :: t) k = p :: alDelete t k := by
        simp [alDelete, List.filter_cons, hpk]
      have h2 := ih hnd.2 hh
      rw [h1]
      simp only [List.length_cons]
      omega

/-! ## Recency-order lemmas -/

theorem mem_updateAccessOrder (order : List String) (k k' : String) :
    k' ∈ updateAccessOrder order k ↔ (k' = k ∨ k' ∈ order) := by
  simp only [updateAccessOrder, List.mem_cons, List.mem_filter]
  constructor
  · rintro (rfl | ⟨h1, _⟩)
    · exact Or.inl rfl
    · exact Or.inr h1
  · rintro (rfl | h1)
    · exact Or.inl rfl
    · by_cases hk : k' = k
      · exact Or.inl hk
      · exact Or.inr ⟨h1, by simpa using hk⟩

theorem updateAccessOrder_of_not_mem {order : List String} {k : String}
    (h : k ∉ order) : updateAccessOrder order k = k :: order := by
  rw [updateAccessOrder, List.filter_eq_self.mpr]
  intro a ha
  simp only [decide_eq_true_eq]
  exact fun hak => h (hak ▸ ha)

/-! ## Size bound for the eviction loop -/

theorem evictLoop_length_le {V : Type} (cfg : CacheConfig V) :
    ∀ (rev : List String) (cache : List (String × CacheEntry V))
      (st : List String),
      (∀ k, alHas cache k = true → k ∈ rev) →
      (evictLoop cfg cache rev st).1.length ≤ cfg.maxSize := by
  intro rev
  induction rev with
  | nil =>
    intro cache st h
    have : cache = [] := by
      cases cache with
      | nil => rfl
      | cons p t =>
        exact absurd (h p.1 (by simp [alHas])) (List.not_mem_nil p.1)
    simp [evictLoop, this]
  | cons k rest ih =>
    intro cache st h
    by_cases hlen : cache.length > cfg.maxSize
    · rw [evictLoop, if_pos hlen]
      refine ih _ _ (fun k' hk' => ?_)
      obtain ⟨h1, h2⟩ := alHas_of_delete hk'
      rcases List.mem_cons.mp (h k' h1) with rfl | hm
      · exact absurd rfl h2
      · exact hm
    · rw [evictLoop, if_neg hlen]
      show cache.length ≤ cfg.maxSize
      omega

theorem evictLoop_subset {V : Type} (cfg : CacheConfig V) :
    ∀ (rev : List String) (cache : List (String × CacheEntry V))
      (st : List String),
      (∀ k, alHas cache k = true → k ∈ rev) →
      (∀ k, alHas (evictLoop cfg cache rev st).1 k = true →
        k ∈ (evictLoop cfg cache rev st).2.1) := by
  intro rev
  induction rev with
  | nil =>
    intro cache st h k hk
    exact h k (by simpa [evictLoop] using hk)
  | cons k0 rest ih =>
    intro cache st h k hk
    by_cases hlen : cache.length > cfg.maxSize
    · rw [evictLoop, if_pos hlen] at hk ⊢
      refine ih _ _ (fun k' hk' => ?_) k hk
      obtain ⟨h1, h2⟩ := alHas_of_delete hk'
      rcases List.mem_cons.mp (h k' h1) with rfl | hm
      · exact absurd rfl h2
      · exact hm
    · rw [evictLoop, if_neg hlen] at hk ⊢
      exact h k hk

theorem evictLoop_of_le {V : Type} (cfg : CacheConfig V)
    (cache : List (String × CacheEntry V)) (rev st : List String)
    (h : ¬ cache.length > cfg.maxSize) :
    evictLoop cfg cache rev st = (cache, rev, st) := by
  cases rev with
  | nil => rfl
  | cons k rest => rw [evictLoop, if_neg h]

/-! ## The reachable-state invariant of the cache -/

/-- Every key present in the map occurs in the access order. -/
def CacheInv {V : Type} (s : CacheState V) : Prop :=
  ∀ k, alHas s.cache k = true → k ∈ s.accessOrder

theorem setRaw_cache {V : Type} (cfg : CacheConfig V) (now : Nat)
    (key : String) (v : V) (s : CacheState V) :
    (setRaw cfg now key v s).cache =
      (evictLoop cfg (alSet s.cache key ⟨v, now, now + cfg.ttl⟩)
        (updateAccessOrder s.accessOrder key).reverse s.storageKeys).1 := rfl

theorem setRaw_order {V : Type} (cfg : CacheConfig V) (now : Nat)
    (key : String) (v : V) (s : CacheState V) :
    (setRaw cfg now key v s).accessOrder =
      (evictLoop cfg (alSet s.cache key ⟨v, now, now + cfg.ttl⟩)
        (updateAccessOrder s.accessOrder key).reverse s.storageKeys).2.1.reverse
      := rfl

theorem setOp_validate_pass {V : Type} {cfg : CacheConfig V} {now : Nat}
    {key : String} {v : V} (s : CacheState V)
    (hv : (match cfg.validate with | some f => f v | none => true) = true) :
    setOp cfg now key v s = setRaw cfg now key v s := by
  rw [setOp, if_pos hv]

theorem setOp_validate_fail {V : Type} {cfg : CacheConfig V} {now : Nat}
    {key : String} {v : V} (s : CacheState V)
    (hv : ¬ (match cfg.validate with | some f => f v | none => true) = true) :
    setOp cfg now key v s = s := by
  rw [setOp, if_neg hv]

theorem getOp_miss {V : Type} (cfg : CacheConfig V) (now : Nat)
    (key : String) (s : CacheState V) (hg : alGet s.cache key = none) :
    getOp cfg now key s = (none, s) := by
  simp [getOp, hg]

theorem getOp_expired {V : Type} (cfg : CacheConfig V) (now : Nat)
    (key : String) (s : CacheState V) (entry : CacheEntry V)
    (hg : alGet s.cache key = some entry) (hexp : now > entry.expiresAt) :
    getOp cfg now key s =
      (none, ⟨alDelete s.cache key, s.accessOrder,
              stRemove cfg s.storageKeys key⟩) := by
  simp [getOp, hg, hexp]

theorem getOp_live {V : Type} (cfg : CacheConfig V) (now : Nat)
    (key : String) (s : CacheState V) (entry : CacheEntry V)
    (hg : alGet s.cache key = some entry) (hexp : ¬ now > entry.expiresAt) :
    getOp cfg now key s =
      (some entry.data, ⟨s.cache, updateAccessOrder s.accessOrder key,
                         s.storageKeys⟩) := by
  simp [getOp, hg, hexp]

theorem hasOp_miss {V : Type} (cfg : CacheConfig V) (now : Nat)
    (key : String) (s : CacheState V) (hg : alGet s.cache key = none) :
    hasOp cfg now key s = (false, s) := by
  simp [hasOp, hg]

theorem hasOp_expired {V : Type} (cfg : CacheConfig V) (now : Nat)
    (key : String) (s : CacheState V) (entry : CacheEntry V)
    (hg : alGet s.cache key = some entry) (hexp : now > entry.expiresAt) :
    hasOp cfg now key s = (false, removeOp cfg key s) := by
  simp [hasOp, hg, hexp]

theorem hasOp_live {V : Type} (cfg : CacheConfig V) (now : Nat)
    (key : String) (s : CacheState V) (entry : CacheEntry V)
    (hg : alGet s.cache key = some entry) (hexp : ¬ now > entry.expiresAt) :
    hasOp cfg now key s = (true, s) := by
  simp [hasOp, hg, hexp]

theorem setRaw_preserves {V : Type} (cfg : CacheConfig V) (now : Nat)
    (key : String) (v : V) (s : CacheState V) (h : CacheInv s) :
    CacheInv (setRaw cfg now key v s) ∧
      (setRaw cfg now key v s).cache.length ≤ cfg.maxSize := by
  have hsub : ∀ k, alHas (alSet s.cache key ⟨v, now, now + cfg.ttl⟩) k = true →
      k ∈ (updateAccessOrder s.accessOrder key).reverse := by
    intro k hk
    rw [List.mem_reverse, mem_updateAccessOrder]
    rcases alHas_of_set hk with rfl | hm
    · exact Or.inl rfl
    · exact Or.inr (h k hm)
  constructor
  · intro k hk
    rw [setRaw_cache] at hk
    rw [setRaw_order, List.mem_reverse]
    exact evictLoop_subset cfg _ _ _ hsub k hk
  · rw [setRaw_cache]
    exact evictLoop_length_le cfg _ _ _ hsub

theorem cacheStep_preserves {V : Type} (cfg : CacheConfig V)
    (s : CacheState V) (op : CacheOp V) (h : CacheInv s)
    (hb : s.cache.length ≤ cfg.maxSize) :
    CacheInv (cacheStep cfg s op) ∧
      (cacheStep cfg s op).cache.length ≤ cfg.maxSize := by
  cases op with
  | setE now key v =>
    show CacheInv (setOp cfg now key v s) ∧
      (setOp cfg now key v s).cache.length ≤ cfg.maxSize
    by_cases hv : (match cfg.validate with | some f => f v | none => true) = true
    · rw [setOp_validate_pass s hv]
      exact setRaw_preserves cfg now key v s h
    · rw [setOp_validate_fail s hv]
      exact ⟨h, hb⟩
  | getE now key =>
    show CacheInv (getOp cfg now key s).2 ∧
      (getOp cfg now key s).2.cache.length ≤ cfg.maxSize
    cases hg : alGet s.cache key with
    | none => rw [getOp_miss cfg now key s hg]; exact ⟨h, hb⟩
    | some entry =>
      by_cases hexp : now > entry.expiresAt
      · rw [getOp_expired cfg now key s entry hg hexp]
        refine ⟨fun k hk => h k (alHas_of_delete hk).1, ?_⟩
        exact le_trans (List.length_filter_le _ _) hb
      · rw [getOp_live cfg now key s entry hg hexp]
        refine ⟨fun k hk => ?_, hb⟩
        rw [mem_updateAccessOrder]
        exact Or.inr (h k hk)

theorem runOps_inv {V : Type} (cfg : CacheConfig V) (ops : List (CacheOp V))
    (s : CacheState V) (h : CacheInv s) (hb : s.cache.length ≤ cfg.maxSize) :
    CacheInv (runOps cfg ops s) ∧
      (runOps cfg ops s).cache.length ≤ cfg.maxSize := by
  induction ops generalizing s with
  | nil => exact ⟨h, hb⟩
  | cons op t ih =>
    have h1 := cacheStep_preserves cfg s op h hb
    simpa [runOps, List.foldl_cons] using ih (cacheStep cfg s op) h1.1 h1.2

/-- One step of LRU eviction, in full generality: when the cache is exactly
full, its keys are exactly the access order (least-recent key `k0` last),
and a fresh key is set, the evicted entry is precisely `k0`. -/
theorem setRaw_evicts_lru {V : Type} (cfg : CacheConfig V)
    (cache : List (String × CacheEntry V)) (rest : List String)
    (k0 key : String) (v : V) (now : Nat) (st : List String)
    (hnd : (cache.map Prod.fst).Nodup)
    (hiff : ∀ k, alHas cache k = true ↔ k ∈ rest ++ [k0])
    (hlen : cache.length = cfg.maxSize)
    (hkey : alHas cache key = false) :
    (setRaw cfg now key v ⟨cache, rest ++ [k0], st⟩).cache
        = alDelete cache k0 ++ [(key, ⟨v, now, now + cfg.ttl⟩)] ∧
    (setRaw cfg now key v ⟨cache, rest ++ [k0], st⟩).accessOrder
        = key :: rest := by
  have hk0 : alHas cache k0 = true := (hiff k0).mpr (by simp)
  have hkeymem : key ∉ rest ++ [k0] := by
    intro hmem
    rw [← hiff key] at hmem
    rw [hkey] at hmem
    exact Bool.false_ne_true hmem
  have hk0key : key ≠ k0 := by
    intro he
    rw [he, hk0] at hkey
    exact absurd hkey (by simp)
  have halset : alSet cache key (⟨v, now, now + cfg.ttl⟩ : CacheEntry V)
      = cache ++ [(key, ⟨v, now, now + cfg.ttl⟩)] :=
    alSet_of_not_has _ hkey
  have horder : updateAccessOrder (rest ++ [k0]) key = key :: (rest ++ [k0]) :=
    updateAccessOrder_of_not_mem hkeymem
  have hrev : (key :: (rest ++ [k0])).reverse
      = k0 :: (rest.reverse ++ [key]) := by
    simp [List.reverse_append]
  have hdel : alDelete (cache ++ [(key, (⟨v, now, now + cfg.ttl⟩ : CacheEntry V))]) k0
      = alDelete cache k0 ++ [(key, ⟨v, now, now + cfg.ttl⟩)] := by
    rw [alDelete_append]
    congr 1
    simp [alDelete, hk0key]
  have hdlen : (alDelete cache k0).length + 1 = cache.length :=
    alDelete_length hnd hk0
  have hloop : evictLoop cfg
      (cache ++ [(key, (⟨v, now, now + cfg.ttl⟩ : CacheEntry V))])
      (k0 :: (rest.reverse ++ [key])) st
      = (alDelete cache k0 ++ [(key, ⟨v, now, now + cfg.ttl⟩)],
         rest.reverse ++ [key], stRemove cfg st k0) := by
    rw [evictLoop, if_pos (by simp only [List.length_append,
      List.length_singleton]; omega)]
    rw [hdel]
    refine evictLoop_of_le cfg _ _ _ ?_
    simp only [List.length_append, List.length_singleton]
    omega
  constructor
  · rw [setRaw_cache]
    show (evictLoop cfg (alSet cache key ⟨v, now, now + cfg.ttl⟩)
      (updateAccessOrder (rest ++ [k0]) key).reverse st).1 = _
    rw [halset, horder, hrev, hloop]
  · rw [setRaw_order]
    show (evictLoop cfg (alSet cache key ⟨v, now, now + cfg.ttl⟩)
      (updateAccessOrder (rest ++ [k0]) key).reverse st).2.1.reverse = _
    rw [halset, horder, hrev, hloop]
    simp

/-! ## Claim theorems about the bounded cache -/

/-- Concrete configuration for the spec's `maxSize = 2` scenario. -/
def cfg2 : CacheConfig Nat := ⟨1000, 2, false, none⟩

/-- Concrete configuration used for expiry examples (`ttl = 1000`). -/
def cfgT : CacheConfig Nat := ⟨1000, 100, false, none⟩

/-- C1: after any sequence of cache operations the number of in-memory
entries never exceeds `maxSize`; when a `set` of a fresh key overflows a
full cache the evicted entry is exactly the least-recently-touched key
(the last key of the recency order, where both `set` and a successful
`get` move a key to the front); and in particular with `maxSize = 2` the
sequence `set a; set b; get a; set c` evicts `b` and keeps `a` and `c`. -/
theorem claim_C1_cache_bound_lru (V : Type) (cfg : CacheConfig V) :
    (∀ ops : List (CacheOp V),
        (runOps cfg ops (emptyCacheState V)).cache.length ≤ cfg.maxSize) ∧
    (∀ (cache : List (String × CacheEntry V)) (rest : List String)
        (k0 key : String) (v : V) (now : Nat) (st : List String),
        cfg.validate = none →
        (cache.map Prod.fst).Nodup →
        (∀ k, alHas cache k = true ↔ k ∈ rest ++ [k0]) →
        cache.length = cfg.maxSize →
        alHas cache key = false →
        alHas (setOp cfg now key v ⟨cache, rest ++ [k0], st⟩).cache k0 = false ∧
        alHas (setOp cfg now key v ⟨cache, rest ++ [k0], st⟩).cache key = true ∧
        (∀ k, k ≠ k0 → alHas cache k = true →
          alHas (setOp cfg now key v ⟨cache, rest ++ [k0], st⟩).cache k = true) ∧
        (setOp cfg now key v ⟨cache, rest ++ [k0], st⟩).cache.length
          = cfg.maxSize) ∧
    (alGet (runOps cfg2 [.setE 0 "a" 1, .setE 0 "b" 2, .getE 0 "a",
        .setE 0 "c" 3] (emptyCacheState Nat)).cache "a" = some ⟨1, 0, 1000⟩ ∧
     alGet (runOps cfg2 [.setE 0 "a" 1, .setE 0 "b" 2, .getE 0 "a",
        .setE 0 "c" 3] (emptyCacheState Nat)).cache "c" = some ⟨3, 0, 1000⟩ ∧
     alGet (runOps cfg2 [.setE 0 "a" 1, .setE 0 "b" 2, .getE 0 "a",
        .setE 0 "c" 3] (emptyCacheState Nat)).cache "b" = none) := by
  refine ⟨?_, ?_, by decide⟩
  · intro ops
    exact (runOps_inv cfg ops (emptyCacheState V)
      (fun k hk => by simp [alHas, emptyCacheState] at hk) (by simp [emptyCacheState])).2
  · intro cache rest k0 key v now st hval hnd hiff hlen hkey
    have hv : (match cfg.validate with | some f => f v | none => true) = true := by
      rw [hval]
    rw [setOp_validate_pass _ hv]
    obtain ⟨hc, _⟩ :=
      setRaw_evicts_lru cfg cache rest k0 key v now st hnd hiff hlen hkey
    have hk0key : key ≠ k0 := by
      intro he
      have := (hiff key).mpr (by simp [he])
      rw [hkey] at this
      exact absurd this (by simp)
    refine ⟨?_, ?_, ?_, ?_⟩
    · rw [hc, alHas_append, alHas_delete_self]
      simp [alHas, hk0key]
    · rw [hc, alHas_append]
      simp [alHas]
    · intro k hk hkc
      rw [hc, alHas_append, alHas_delete_of_ne hk hkc]
      simp
    · rw [hc]
      have := alDelete_length hnd ((hiff k0).mpr (by simp))
      simp only [List.length_append, List.length_singleton]
      omega

/-- Witness for C1: the size bound evaluated on the concrete scenario
sequence, and the general eviction clause instantiated on a concrete full
cache. -/
theorem claim_C1_cache_bound_lru_witness :
    (runOps cfg2 [.setE 0 "a" 1, .setE 0 "b" 2, .getE 0 "a", .setE 0 "c" 3]
        (emptyCacheState Nat)).cache.length ≤ cfg2.maxSize ∧
    alHas (setOp cfg2 5 "c" 9
        ⟨[("a", ⟨1, 0, 1000⟩), ("b", ⟨2, 0, 1000⟩)], ["a"] ++ ["b"],
         []⟩).cache "b" = false := by
  refine ⟨(claim_C1_cache_bound_lru Nat cfg2).1 _, ?_⟩
  exact ((claim_C1_cache_bound_lru Nat cfg2).2.1
    [("a", ⟨1, 0, 1000⟩), ("b", ⟨2, 0, 1000⟩)] ["a"] "b" "c" 9 5 []
    rfl (by decide)
    (by
      intro k
      simp only [alHas, List.any_cons, List.any_nil, Bool.or_false,
        Bool.or_eq_true, decide_eq_true_eq, List.cons_append, List.nil_append,
        List.mem_cons, List.not_mem_nil, or_false]
      constructor
      · rintro (h | h)
        · exact Or.inl h.symm
        · exact Or.inr h.symm
      · rintro (h | h)
        · exact Or.inl h.symm
        · exact Or.inr h.symm)
    (by decide) (by decide)).1

/-- C4 as stated is false on the code: `get` uses the strict test
`now > expiresAt`, so at `now = expiresAt` (here `1000 ≥ 1000`) the entry
is still returned rather than absent. -/
theorem claim_C4_counterexample :
    alGet ((setOp cfgT 0 "k" 7 (emptyCacheState Nat)).cache) "k"
        = some ⟨7, 0, 1000⟩ ∧
    (1000 : Nat) ≥ 1000 ∧
    (getOp cfgT 1000 "k" (setOp cfgT 0 "k" 7 (emptyCacheState Nat))).1
        = some 7 := by decide

/-- C4 (amended): for a present entry, `get` returns absent once
`now > expiresAt` (strictly), even if the entry was never explicitly
removed; while `now ≤ expiresAt` it returns the stored value. -/
theorem claim_C4_expiry {V : Type} (cfg : CacheConfig V) (now : Nat)
    (key : String) (s : CacheState V) (e : CacheEntry V)
    (he : alGet s.cache key = some e) :
    (now > e.expiresAt → (getOp cfg now key s).1 = none) ∧
    (now ≤ e.expiresAt → (getOp cfg now key s).1 = some e.data) := by
  constructor
  · intro h
    rw [getOp_expired cfg now key s e he h]
  · intro h
    rw [getOp_live cfg now key s e he (by omega)]

/-- Witness for C4 (amended) at a concrete expired and a concrete live
read. -/
theorem claim_C4_expiry_witness :
    (getOp cfgT 1001 "k" (setOp cfgT 0 "k" (7 : Nat) (emptyCacheState Nat))).1
        = none ∧
    (getOp cfgT 500 "k" (setOp cfgT 0 "k" (7 : Nat) (emptyCacheState Nat))).1
        = some 7 :=
  ⟨(claim_C4_expiry cfgT 1001 "k" _ ⟨7, 0, 1000⟩ (by decide)).1 (by decide),
   (claim_C4_expiry cfgT 500 "k" _ ⟨7, 0, 1000⟩ (by decide)).2 (by decide)⟩

/-- C10: a `has` that returns `true` leaves the whole cache state (and in
particular the recency order) exactly as it was; a `has` that finds the
entry expired removes it from the in-memory map, the recency order and
the durable backing and returns `false`; a `has` on a missing key changes
nothing. -/
theorem claim_C10_has_frame {V : Type} (cfg : CacheConfig V) (now : Nat)
    (key : String) (s : CacheState V) :
    ((hasOp cfg now key s).1 = true → (hasOp cfg now key s).2 = s) ∧
    (∀ e, alGet s.cache key = some e → now > e.expiresAt →
      (hasOp cfg now key s).1 = false ∧
      (hasOp cfg now key s).2.cache = alDelete s.cache key ∧
      (hasOp cfg now key s).2.accessOrder
        = s.accessOrder.filter (fun k => k ≠ key) ∧
      (hasOp cfg now key s).2.storageKeys = stRemove cfg s.storageKeys key) ∧
    (alGet s.cache key = none → hasOp cfg now key s = (false, s)) := by
  refine ⟨?_, ?_, fun hg => hasOp_miss cfg now key s hg⟩
  · intro h
    cases hg : alGet s.cache key with
    | none => rw [hasOp_miss cfg now key s hg] at h; exact absurd h (by simp)
    | some e =>
      by_cases hexp : now > e.expiresAt
      · rw [hasOp_expired cfg now key s e hg hexp] at h
        exact absurd h (by simp)
      · rw [hasOp_live cfg now key s e hg hexp]
  · intro e hg hexp
    rw [hasOp_expired cfg now key s e hg hexp]
    exact ⟨rfl, rfl, rfl, rfl⟩

/-- Witness for C10: a live `has` leaves the state untouched, an expired
`has` returns `false` with the entry dropped from the map. -/
theorem claim_C10_has_frame_witness :
    (hasOp cfgT 500 "k" (setOp cfgT 0 "k" (7 : Nat) (emptyCacheState Nat))).2
        = setOp cfgT 0 "k" (7 : Nat) (emptyCacheState Nat) ∧
    (hasOp cfgT 2000 "k" (setOp cfgT 0 "k" (7 : Nat) (emptyCacheState Nat))).1
        = false ∧
    (hasOp cfgT 2000 "k" (setOp cfgT 0 "k" (7 : Nat)
        (emptyCacheState Nat))).2.cache = [] :=
  ⟨(claim_C10_has_frame cfgT 500 "k" _).1 (by decide),
   ((claim_C10_has_frame cfgT 2000 "k" _).2.1 ⟨7, 0, 1000⟩ (by decide)
      (by decide)).1,
   by rw [((claim_C10_has_frame cfgT 2000 "k" _).2.1 ⟨7, 0, 1000⟩ (by decide)
      (by decide)).2.1]; decide⟩

/-! ## Bounded retry (`retryRequest`, useNetwork.ts) -/

/-- A wait performed between retry attempts: a timed delay while the
captured network state is online, or a wait for the browser online event
otherwise. -/
inductive RetryWait where
  | timed (ms : Nat)
  | untilOnline
  deriving Repr, DecidableEq

/-- The retry loop `for (let i = 0; i < maxRetries; i++)` with the loop
counter `i` and the remaining iterations as structural fuel
(`fuel = maxRetries - i`).  A failed attempt `i` is followed by a wait of
`delay * (i + 1)` milliseconds when online; the wait happens even after
the final failed attempt, before the error is rethrown. -/
def retryAux {T : Type} (request : Nat → Option T) (online : Bool)
    (delay : Nat) : Nat → Nat → Option T × List RetryWait
  | _, 0 => (none, [])
  | i, fuel + 1 =>
    match request i with
    | some v => (some v, [])
    | none =>
      ((retryAux request online delay (i + 1) fuel).1,
       (if online then RetryWait.timed (delay * (i + 1))
        else RetryWait.untilOnline)
         :: (retryAux request online delay (i + 1) fuel).2)

/-- `retryRequest(request, maxRetries, delay)`: outcome plus the ordered
list of waits performed. -/
def retryRequest {T : Type} (request : Nat → Option T) (online : Bool)
    (maxRetries delay : Nat) : Option T × List RetryWait :=
  retryAux request online delay 0 maxRetries

/-! ## Synchronizer (`useSync`, src/unnamed/part_007) -/

inductive SyncStatus where
  | idle
  | syncing
  | error
  | success
  deriving Repr, DecidableEq

inductive ChangeType where
  | update
  | delete
  deriving Repr, DecidableEq

structure PendingChange (T : Type) where
  timestamp : Nat
  data : T
  type : ChangeType
  deriving Repr, DecidableEq

structure SyncState (T : Type) where
  data : T
  lastSynced : Option Nat
  isSyncing : Bool
  hasError : Bool
  syncStatus : SyncStatus
  pendingChanges : List (PendingChange T)
  deriving Repr, DecidableEq

/-- `validateAndApply`: `false` exactly when a validator is configured and
rejects the value. -/
def validatePass {T : Type} (validateData : Option (T → Bool)) (d : T) :
    Bool :=
  match validateData with
  | some f => f d
  | none => true

/-- The `for (const change of pendingChanges)` fold of `sync()`: only
changes of type `update` are merged; the change's payload is the second
(winning) argument of the merge. -/
def applyPendingChanges {T : Type} (merge : T → T → T) (remoteData : T)
    (pending : List (PendingChange T)) : T :=
  pending.foldl
    (fun acc c => match c.type with
      | .update => merge acc c.data
      | .delete => acc)
    remoteData

/-- The `catch` branch of `sync()`: syncing cleared, error recorded,
everything else (data, pending log, lastSynced) untouched. -/
def errorResult {T : Type} (s : SyncState T) : SyncState T :=
  { s with isSyncing := false, hasError := true, syncStatus := .error }

/-- `pushData` wrapped for the retry loop: attempt `i` either resolves
(`some ()`) or rejects. -/
def pushRequest (pushAttempt : Nat → Bool) : Nat → Option Unit :=
  fun i => if pushAttempt i then some () else none

/-- One full run of `sync()`.  `online`, `hasFetch` and `hasPush` say
whether the transport is online and fetch/push capabilities are
configured; `fetchAttempt i` / `pushAttempt i` give the outcome of the
i-th fetch / push attempt inside the bounded retry. -/
def runSync {T : Type} (merge : T → T → T) (validateData : Option (T → Bool))
    (retryAttempts retryDelay : Nat) (online hasFetch : Bool)
    (fetchAttempt : Nat → Option T) (hasPush : Bool)
    (pushAttempt : Nat → Bool) (now : Nat) (s : SyncState T) : SyncState T :=
  if online = false ∨ hasFetch = false ∨ s.isSyncing = true then s
  else
    match (retryRequest fetchAttempt online retryAttempts retryDelay).1 with
    | none => errorResult s
    | some remoteData =>
      if validatePass validateData
          (applyPendingChanges merge remoteData s.pendingChanges) = false then
        errorResult s
      else
        if hasPush = true ∧ 0 < s.pendingChanges.length then
          match (retryRequest (pushRequest pushAttempt) online retryAttempts
              retryDelay).1 with
          | none => errorResult s
          | some _ =>
            ⟨applyPendingChanges merge remoteData s.pendingChanges, some now,
             false, false, .success, []⟩
        else
          ⟨applyPendingChanges merge remoteData s.pendingChanges, some now,
           false, false, .success, s.pendingChanges⟩

/-- `update(changes)`: merge into the in-memory data, reject (leaving the
whole state unchanged) when the validator refuses the merged value,
otherwise append a pending change of type `update` to the log.  The
function takes no network capability at all: it cannot touch the
network. -/
def runUpdate {T : Type} (merge : T → T → T)
    (validateData : Option (T → Bool)) (now : Nat) (changes : T)
    (s : SyncState T) : SyncState T :=
  if validatePass validateData (merge s.data changes) = false then s
  else
    { s with data := merge s.data changes,
             pendingChanges := s.pendingChanges ++ [⟨now, changes, .update⟩] }

/-- JS objects with string keys, for the default (spread) merge. -/
abbrev Obj (A : Type) : Type := List (String × A)

/-- `defaultMergeStrategy = (local, remote) => ({...local, ...remote})`:
keys of `local` first (values overridden by `remote` where present), then
the keys only `remote` has; the second argument wins on conflicts. -/
def defaultMergeStrategy {A : Type} (loc rem : Obj A) : Obj A :=
  loc.map (fun p =>
    match alGet rem p.1 with
    | some v => (p.1, v)
    | none => p)
    ++ rem.filter (fun p => alHas loc p.1 = false)

/-! ## Branch equations for `runSync` -/

theorem runSync_guard {T : Type} (merge : T → T → T)
    (validateData : Option (T → Bool)) (retryAttempts retryDelay : Nat)
    (online hasFetch : Bool) (fetchAttempt : Nat → Option T)
    (hasPush : Bool) (pushAttempt : Nat → Bool) (now : Nat)
    (s : SyncState T)
    (h : online = false ∨ hasFetch = false ∨ s.isSyncing = true) :
    runSync merge validateData retryAttempts retryDelay online hasFetch
      fetchAttempt hasPush pushAttempt now s = s := by
  rw [runSync, if_pos h]

theorem runSync_fetch_fail {T : Type} (merge : T → T → T)
    (validateData : Option (T → Bool)) (retryAttempts retryDelay : Nat)
    (online hasFetch : Bool) (fetchAttempt : Nat → Option T)
    (hasPush : Bool) (pushAttempt : Nat → Bool) (now : Nat)
    (s : SyncState T)
    (hg : ¬ (online = false ∨ hasFetch = false ∨ s.isSyncing = true))
    (hf : (retryRequest fetchAttempt online retryAttempts retryDelay).1
      = none) :
    runSync merge validateData retryAttempts retryDelay online hasFetch
      fetchAttempt hasPush pushAttempt now s = errorResult s := by
  rw [runSync, if_neg hg]
  simp only [hf]

theorem runSync_invalid {T : Type} (merge : T → T → T)
    (validateData : Option (T → Bool)) (retryAttempts retryDelay : Nat)
    (online hasFetch : Bool) (fetchAttempt : Nat → Option T)
    (hasPush : Bool) (pushAttempt : Nat → Bool) (now : Nat)
    (s : SyncState T) (remoteData : T)
    (hg : ¬ (online = false ∨ hasFetch = false ∨ s.isSyncing = true))
    (hf : (retryRequest fetchAttempt online retryAttempts retryDelay).1
      = some remoteData)
    (hv : validatePass validateData
      (applyPendingChanges merge remoteData s.pendingChanges) = false) :
    runSync merge validateData retryAttempts retryDelay online hasFetch
      fetchAttempt hasPush pushAttempt now s = errorResult s := by
  rw [runSync, if_neg hg]
  simp only [hf]
  rw [if_pos hv]

theorem runSync_push_fail {T : Type} (merge : T → T → T)
    (validateData : Option (T → Bool)) (retryAttempts retryDelay : Nat)
    (online hasFetch : Bool) (fetchAttempt : Nat → Option T)
    (hasPush : Bool) (pushAttempt : Nat → Bool) (now : Nat)
    (s : SyncState T) (remoteData : T)
    (hg : ¬ (online = false ∨ hasFetch = false ∨ s.isSyncing = true))
    (hf : (retryRequest fetchAttempt online retryAttempts retryDelay).1
      = some remoteData)
    (hv : validatePass validateData
      (applyPendingChanges merge remoteData s.pendingChanges) = true)
    (hp : hasPush = true ∧ 0 < s.pendingChanges.length)
    (hpf : (retryRequest (pushRequest pushAttempt) online retryAttempts
      retryDelay).1 = none) :
    runSync merge validateData retryAttempts retryDelay online hasFetch
      fetchAttempt hasPush pushAttempt now s = errorResult s := by
  rw [runSync, if_neg hg]
  simp only [hf]
  rw [if_neg (by simp [hv]), if_pos hp]
  simp only [hpf]

theorem runSync_push_ok {T : Type} (merge : T → T → T)
    (validateData : Option (T → Bool)) (retryAttempts retryDelay : Nat)
    (online hasFetch : Bool) (fetchAttempt : Nat → Option T)
    (hasPush : Bool) (pushAttempt : Nat → Bool) (now : Nat)
    (s : SyncState T) (remoteData : T)
    (hg : ¬ (online = false ∨ hasFetch = false ∨ s.isSyncing = true))
    (hf : (retryRequest fetchAttempt online retryAttempts retryDelay).1
      = some remoteData)
    (hv : validatePass validateData
      (applyPendingChanges merge remoteData s.pendingChanges) = true)
    (hp : hasPush = true ∧ 0 < s.pendingChanges.length)
    (hpo : (retryRequest (pushRequest pushAttempt) online retryAttempts
      retryDelay).1 = some ()) :
    runSync merge validateData retryAttempts retryDelay online hasFetch
      fetchAttempt hasPush pushAttempt now s
      = ⟨applyPendingChanges merge remoteData s.pendingChanges, some now,
         false, false, .success, []⟩ := by
  rw [runSync, if_neg hg]
  simp only [hf]
  rw [if_neg (by simp [hv]), if_pos hp]
  simp only [hpo]

theorem runSync_no_push {T : Type} (merge : T → T → T)
    (validateData : Option (T → Bool)) (retryAttempts retryDelay : Nat)
    (online hasFetch : Bool) (fetchAttempt : Nat → Option T)
    (hasPush : Bool) (pushAttempt : Nat → Bool) (now : Nat)
    (s : SyncState T) (remoteData : T)
    (hg : ¬ (online = false ∨ hasFetch = false ∨ s.isSyncing = true))
    (hf : (retryRequest fetchAttempt online retryAttempts retryDelay).1
      = some remoteData)
    (hv : validatePass validateData
      (applyPendingChanges merge remoteData s.pendingChanges) = true)
    (hp : ¬ (hasPush = true ∧ 0 < s.pendingChanges.length)) :
    runSync merge validateData retryAttempts retryDelay online hasFetch
      fetchAttempt hasPush pushAttempt now s
      = ⟨applyPendingChanges merge remoteData s.pendingChanges, some now,
         false, false, .success, s.pendingChanges⟩ := by
  rw [runSync, if_neg hg]
  simp only [hf]
  rw [if_neg (by simp [hv]), if_neg hp]

/-! ## Retry lemmas -/

theorem retryAux_none_iff {T : Type} (request : Nat → Option T)
    (online : Bool) (delay : Nat) :
    ∀ (fuel i : Nat),
      ((retryAux request online delay i fuel).1 = none ↔
        ∀ j, i ≤ j → j < i + fuel → request j = none) := by
  intro fuel
  induction fuel with
  | zero =>
    intro i
    constructor
    · intro _ j h1 h2
      omega
    · intro _
      rfl
  | succ fuel ih =>
    intro i
    cases hr : request i with
    | some v =>
      simp only [retryAux, hr]
      constructor
      · intro h
        exact absurd h (by simp)
      · intro h
        exact absurd (h i le_rfl (by omega)) (by simp [hr])
    | none =>
      simp only [retryAux, hr]
      rw [ih (i + 1)]
      constructor
      · intro h j h1 h2
        rcases Nat.eq_or_lt_of_le h1 with rfl | hlt
        · exact hr
        · exact h j (by omega) (by omega)
      · intro h j h1 h2
        exact h j (by omega) (by omega)

theorem retryAux_delays {T : Type} (request : Nat → Option T) (delay : Nat) :
    ∀ (fuel i : Nat), (∀ j, i ≤ j → j < i + fuel → request j = none) →
      (retryAux request true delay i fuel).2
        = (List.range fuel).map
            (fun j => RetryWait.timed (delay * (i + j + 1))) := by
  intro fuel
  induction fuel with
  | zero =>
    intro i _
    rfl
  | succ fuel ih =>
    intro i h
    have hr : request i = none := h i le_rfl (by omega)
    simp only [retryAux, hr, if_pos rfl]
    rw [ih (i + 1) (fun j h1 h2 => h j (by omega) (by omega))]
    rw [List.range_succ_eq_map]
    simp only [List.map_cons, List.map_map, Function.comp, Nat.add_zero,
      if_true]
    congr 1
    refine List.map_congr_left (fun j _ => ?_)
    simp only [Function.comp_apply]
    congr 1
    simp only [Nat.succ_eq_add_one]
    ring

theorem retryRequest_none_iff {T : Type} (request : Nat → Option T)
    (online : Bool) (maxRetries delay : Nat) :
    (retryRequest request online maxRetries delay).1 = none ↔
      ∀ i, i < maxRetries → request i = none := by
  rw [retryRequest, retryAux_none_iff]
  constructor
  · intro h i hi
    exact h i (by omega) (by omega)
  · intro h j _ h2
    exact h j (by omega)

theorem retryRequest_delays {T : Type} (request : Nat → Option T)
    (maxRetries delay : Nat) (h : ∀ i, i < maxRetries → request i = none) :
    (retryRequest request true maxRetries delay).2
      = (List.range maxRetries).map
          (fun i => RetryWait.timed (delay * (i + 1))) := by
  rw [retryRequest, retryAux_delays _ _ _ 0 (fun j _ h2 => h j (by omega))]
  congr 1
  funext j
  congr 1
  ring

/-! ## Claim theorems about the synchronizer -/

/-- C7: `sync()` is a no-op, returning the state unchanged (and in
particular reporting no error), whenever the transport is offline, no
fetch capability is configured, or a sync cycle is already in flight
(`isSyncing`) — the re-entrant call is dropped, not queued. -/
theorem claim_C7_sync_noop {T : Type} (merge : T → T → T)
    (validateData : Option (T → Bool)) (retryAttempts retryDelay : Nat)
    (online hasFetch : Bool) (fetchAttempt : Nat → Option T)
    (hasPush : Bool) (pushAttempt : Nat → Bool) (now : Nat)
    (s : SyncState T)
    (h : online = false ∨ hasFetch = false ∨ s.isSyncing = true) :
    runSync merge validateData retryAttempts retryDelay online hasFetch
      fetchAttempt hasPush pushAttempt now s = s :=
  runSync_guard merge validateData retryAttempts retryDelay online hasFetch
    fetchAttempt hasPush pushAttempt now s h

/-- Witness for C7: the offline, the no-fetch-capability and the
already-syncing no-op, each on a concrete state. -/
theorem claim_C7_sync_noop_witness :
    runSync (fun a _ => (a : Nat)) none 3 1000 false true (fun _ => some 1)
        false (fun _ => true) 0 ⟨0, none, false, false, .idle, []⟩
      = ⟨0, none, false, false, .idle, []⟩ ∧
    runSync (fun a _ => (a : Nat)) none 3 1000 true false (fun _ => some 1)
        false (fun _ => true) 0 ⟨0, none, false, false, .idle, []⟩
      = ⟨0, none, false, false, .idle, []⟩ ∧
    runSync (fun a _ => (a : Nat)) none 3 1000 true true (fun _ => some 1)
        false (fun _ => true) 0 ⟨0, none, true, false, .syncing, []⟩
      = ⟨0, none, true, false, .syncing, []⟩ :=
  ⟨claim_C7_sync_noop _ _ _ _ _ _ _ _ _ _ _ (Or.inl rfl),
   claim_C7_sync_noop _ _ _ _ _ _ _ _ _ _ _ (Or.inr (Or.inl rfl)),
   claim_C7_sync_noop _ _ _ _ _ _ _ _ _ _ _ (Or.inr (Or.inr rfl))⟩

/-- C2: if the push phase of `sync()` fails on every one of its retry
attempts, the pending log after the call is exactly the pending log
before it (same changes, same order) and the status is `error`; a later
`sync()` whose fetch and push both succeed clears the pending log. -/
theorem claim_C2_push_fail_preserves_pending {T : Type} (merge : T → T → T)
    (validateData : Option (T → Bool)) (retryAttempts retryDelay : Nat)
    (fetch1 fetch2 : Nat → Option T) (push1 push2 : Nat → Bool)
    (now1 now2 : Nat) (s : SyncState T) (remote1 remote2 : T)
    (hs : s.isSyncing = false)
    (hne : s.pendingChanges ≠ [])
    (hf1 : (retryRequest fetch1 true retryAttempts retryDelay).1
      = some remote1)
    (hv1 : validatePass validateData
      (applyPendingChanges merge remote1 s.pendingChanges) = true)
    (hp1 : ∀ i, i < retryAttempts → push1 i = false)
    (hf2 : (retryRequest fetch2 true retryAttempts retryDelay).1
      = some remote2)
    (hv2 : validatePass validateData
      (applyPendingChanges merge remote2 s.pendingChanges) = true)
    (hp2 : (retryRequest (pushRequest push2) true retryAttempts
      retryDelay).1 = some ()) :
    (runSync merge validateData retryAttempts retryDelay true true fetch1
        true push1 now1 s).pendingChanges = s.pendingChanges ∧
    (runSync merge validateData retryAttempts retryDelay true true fetch1
        true push1 now1 s).syncStatus = .error ∧
    (runSync merge validateData retryAttempts retryDelay true true fetch2
        true push2 now2
        (runSync merge validateData retryAttempts retryDelay true true
          fetch1 true push1 now1 s)).pendingChanges = [] := by
  have hg : ¬ (true = false ∨ true = false ∨ s.isSyncing = true) := by
    simp [hs]
  have hpf : (retryRequest (pushRequest push1) true retryAttempts
      retryDelay).1 = none := by
    rw [retryRequest_none_iff]
    intro i hi
    simp [pushRequest, hp1 i hi]
  have hlen : 0 < s.pendingChanges.length := List.length_pos.mpr hne
  have h1 := runSync_push_fail merge validateData retryAttempts retryDelay
    true true fetch1 true push1 now1 s remote1 hg hf1 hv1 ⟨rfl, hlen⟩ hpf
  refine ⟨by rw [h1]; rfl, by rw [h1]; rfl, ?_⟩
  rw [h1]
  have hg2 : ¬ (true = false ∨ true = false ∨
      (errorResult s).isSyncing = true) := by
    simp [errorResult]
  have h2 := runSync_push_ok merge validateData retryAttempts retryDelay
    true true fetch2 true push2 now2 (errorResult s) remote2 hg2 hf2 hv2
    ⟨rfl, hlen⟩ hp2
  rw [h2]

/-- Witness for C2 on a concrete one-change log: a push that always fails
preserves the log and sets `error`; a successful second sync clears it. -/
theorem claim_C2_push_fail_preserves_pending_witness :
    (runSync (fun _ b => (b : Nat)) none 2 1 true true (fun _ => some 10)
        true (fun _ => false) 3 ⟨0, none, false, false, .idle,
          [⟨0, 5, .update⟩]⟩).pendingChanges = [⟨0, 5, .update⟩] ∧
    (runSync (fun _ b => (b : Nat)) none 2 1 true true (fun _ => some 10)
        true (fun _ => false) 3 ⟨0, none, false, false, .idle,
          [⟨0, 5, .update⟩]⟩).syncStatus = .error ∧
    (runSync (fun _ b => (b : Nat)) none 2 1 true true (fun _ => some 20)
        true (fun _ => true) 4
        (runSync (fun _ b => (b : Nat)) none 2 1 true true (fun _ => some 10)
          true (fun _ => false) 3 ⟨0, none, false, false, .idle,
            [⟨0, 5, .update⟩]⟩)).pendingChanges = [] :=
  claim_C2_push_fail_preserves_pending (fun _ b => (b : Nat)) none 2 1
    (fun _ => some 10) (fun _ => some 20) (fun _ => false) (fun _ => true)
    3 4 ⟨0, none, false, false, .idle, [⟨0, 5, .update⟩]⟩ 10 20
    rfl (by decide) rfl rfl (fun _ _ => rfl) rfl rfl rfl

/-- C3 as stated is false on the code: the waits between retry attempts
are not the fixed `retryDelay`; `retryRequest` waits `delay * (i + 1)`
after failed attempt `i`, so with `retryAttempts = 3`, `retryDelay = 1000`
the recorded waits are 1000, 2000, 3000 ms, not three times 1000 ms. -/
theorem claim_C3_counterexample :
    (retryRequest (fun _ => (none : Option Nat)) true 3 1000).2
        = [RetryWait.timed 1000, RetryWait.timed 2000, RetryWait.timed 3000] ∧
    (retryRequest (fun _ => (none : Option Nat)) true 3 1000).2
        ≠ List.replicate 3 (RetryWait.timed 1000) := by
  decide

/-- C3 (amended): during `sync()` the fetch is attempted up to
`retryAttempts` times and fails only after every attempt has failed; when
all attempts fail (online), the waits performed are
`retryDelay * (i + 1)` after the i-th failed attempt — a linearly growing
backoff, including a final wait before the error is rethrown — and the
sync ends with status `error` and the pending log untouched. -/
theorem claim_C3_retry_linear_backoff {T : Type} (request : Nat → Option T)
    (retryAttempts retryDelay : Nat) :
    ((retryRequest request true retryAttempts retryDelay).1 = none ↔
      ∀ i, i < retryAttempts → request i = none) ∧
    ((∀ i, i < retryAttempts → request i = none) →
      (retryRequest request true retryAttempts retryDelay).2
        = (List.range retryAttempts).map
            (fun i => RetryWait.timed (retryDelay * (i + 1)))) ∧
    (∀ (merge : T → T → T) (validateData : Option (T → Bool))
        (hasPush : Bool) (pushAttempt : Nat → Bool) (now : Nat)
        (s : SyncState T), s.isSyncing = false →
        (∀ i, i < retryAttempts → request i = none) →
        (runSync merge validateData retryAttempts retryDelay true true
            request hasPush pushAttempt now s).syncStatus = .error ∧
        (runSync merge validateData retryAttempts retryDelay true true
            request hasPush pushAttempt now s).pendingChanges
          = s.pendingChanges) := by
  refine ⟨retryRequest_none_iff request true retryAttempts retryDelay,
    retryRequest_delays request retryAttempts retryDelay, ?_⟩
  intro merge validateData hasPush pushAttempt now s hs hfail
  have hg : ¬ (true = false ∨ true = false ∨ s.isSyncing = true) := by
    simp [hs]
  have hf : (retryRequest request true retryAttempts retryDelay).1 = none :=
    (retryRequest_none_iff request true retryAttempts retryDelay).mpr hfail
  rw [runSync_fetch_fail merge validateData retryAttempts retryDelay true
    true request hasPush pushAttempt now s hg hf]
  exact ⟨rfl, rfl⟩

/-- Witness for C3 (amended): a fetch that always fails, on a concrete
synchronizer state. -/
theorem claim_C3_retry_linear_backoff_witness :
    (retryRequest (fun _ => (none : Option Nat)) true 3 1000).2
        = (List.range 3).map (fun i => RetryWait.timed (1000 * (i + 1))) ∧
    (runSync (fun _ b => (b : Nat)) none 3 1000 true true (fun _ => none)
        false (fun _ => true) 9 ⟨0, none, false, false, .idle, []⟩).syncStatus
      = .error :=
  ⟨(claim_C3_retry_linear_backoff (fun _ => (none : Option Nat)) 3 1000).2.1
      (fun _ _ => rfl),
   ((claim_C3_retry_linear_backoff (fun _ => (none : Option Nat)) 3 1000).2.2
      (fun _ b => b) none false (fun _ => true) 9
      ⟨0, none, false, false, .idle, []⟩ rfl (fun _ _ => rfl)).1⟩

/-- C5: `update(changes)` with the default merge strategy: if the
configured validator rejects the merged value the whole state — in
particular `data` and the pending log — stays unchanged; otherwise
`changes` is merged into `data` by shallow field overwrite
(`defaultMergeStrategy`, i.e. the object spread of the source) and one
`PendingChange` of type `update` is appended to the log.  `runUpdate`
takes no fetch/push capability: the call cannot perform network I/O. -/
theorem claim_C5_update_local {A : Type}
    (validateData : Option (Obj A → Bool)) (now : Nat) (changes : Obj A)
    (s : SyncState (Obj A)) :
    (validatePass validateData (defaultMergeStrategy s.data changes) = false →
      runUpdate defaultMergeStrategy validateData now changes s = s) ∧
    (validatePass validateData (defaultMergeStrategy s.data changes) = true →
      runUpdate defaultMergeStrategy validateData now changes s
        = { s with data := defaultMergeStrategy s.data changes,
                   pendingChanges := s.pendingChanges
                     ++ [⟨now, changes, ChangeType.update⟩] }) := by
  constructor
  · intro h
    rw [runUpdate, if_pos h]
  · intro h
    rw [runUpdate, if_neg (by simp [h])]

/-- Witness for C5: a rejected update leaves the state unchanged; an
accepted update overwrites the shared field, keeps the extra field, and
appends the pending change. -/
theorem claim_C5_update_local_witness :
    runUpdate defaultMergeStrategy (some (fun _ => false)) 3
        [("count", (1 : Nat))]
        ⟨[("count", 0), ("extra", 9)], none, false, false, .idle, []⟩
      = ⟨[("count", 0), ("extra", 9)], none, false, false, .idle, []⟩ ∧
    runUpdate defaultMergeStrategy none 3 [("count", (1 : Nat))]
        ⟨[("count", 0), ("extra", 9)], none, false, false, .idle, []⟩
      = ⟨[("count", 1), ("extra", 9)], none, false, false, .idle,
         [⟨3, [("count", 1)], ChangeType.update⟩]⟩ := by
  constructor
  · exact (claim_C5_update_local (some (fun _ => false)) 3 _ _).1 rfl
  · rw [(claim_C5_update_local none 3 [("count", (1 : Nat))] _).2 rfl]
    decide

/-- C6: with a fixed fetch outcome and a fixed pending log (no push
capability, so the log is not cleared), `sync()` always produces the same
merged data — the fold of the pending changes, in log order, over the
fetched remote state — and applying `sync()` again (any number of times)
does not change the state further. -/
theorem claim_C6_sync_idempotent {T : Type} (merge : T → T → T)
    (validateData : Option (T → Bool)) (retryAttempts retryDelay : Nat)
    (fetchAttempt : Nat → Option T) (pushAttempt : Nat → Bool) (now : Nat)
    (s : SyncState T) (remote : T)
    (hs : s.isSyncing = false)
    (hf : (retryRequest fetchAttempt true retryAttempts retryDelay).1
      = some remote)
    (hv : validatePass validateData
      (applyPendingChanges merge remote s.pendingChanges) = true) :
    (runSync merge validateData retryAttempts retryDelay true true
        fetchAttempt false pushAttempt now s).data
      = applyPendingChanges merge remote s.pendingChanges ∧
    (runSync merge validateData retryAttempts retryDelay true true
        fetchAttempt false pushAttempt now s).pendingChanges
      = s.pendingChanges ∧
    (∀ n : Nat,
      (runSync merge validateData retryAttempts retryDelay true true
        fetchAttempt false pushAttempt now)^[n + 1] s
      = runSync merge validateData retryAttempts retryDelay true true
          fetchAttempt false pushAttempt now s) := by
  have hg : ¬ (true = false ∨ true = false ∨ s.isSyncing = true) := by
    simp [hs]
  have h1 := runSync_no_push merge validateData retryAttempts retryDelay
    true true fetchAttempt false pushAttempt now s remote hg hf hv
    (by simp)
  have hfix : runSync merge validateData retryAttempts retryDelay true true
      fetchAttempt false pushAttempt now
      (runSync merge validateData retryAttempts retryDelay true true
        fetchAttempt false pushAttempt now s)
      = runSync merge validateData retryAttempts retryDelay true true
          fetchAttempt false pushAttempt now s := by
    rw [h1]
    exact runSync_no_push merge validateData retryAttempts retryDelay
      true true fetchAttempt false pushAttempt now _ remote (by simp) hf hv
      (by simp)
  refine ⟨by rw [h1], by rw [h1], ?_⟩
  intro n
  rw [Function.iterate_succ_apply]
  exact Function.iterate_fixed hfix n

/-- Witness for C6: one pending change folded over a fixed remote
snapshot; repeated syncs leave the state fixed. -/
theorem claim_C6_sync_idempotent_witness :
    (runSync (fun _ b => (b : Nat)) none 2 1 true true (fun _ => some 10)
        false (fun _ => true) 7 ⟨0, none, false, false, .idle,
          [⟨0, 5, .update⟩]⟩).data = 5 ∧
    (runSync (fun _ b => (b : Nat)) none 2 1 true true (fun _ => some 10)
        false (fun _ => true) 7)^[2]
        ⟨0, none, false, false, .idle, [⟨0, 5, .update⟩]⟩
      = runSync (fun _ b => (b : Nat)) none 2 1 true true (fun _ => some 10)
          false (fun _ => true) 7
          ⟨0, none, false, false, .idle, [⟨0, 5, .update⟩]⟩ :=
  ⟨(claim_C6_sync_idempotent (fun _ b => (b : Nat)) none 2 1
      (fun _ => some 10) (fun _ => true) 7
      ⟨0, none, false, false, .idle, [⟨0, 5, .update⟩]⟩ 10 rfl rfl rfl).1,
   (claim_C6_sync_idempotent (fun _ b => (b : Nat)) none 2 1
      (fun _ => some 10) (fun _ => true) 7
      ⟨0, none, false, false, .idle, [⟨0, 5, .update⟩]⟩ 10 rfl rfl rfl).2.2 1⟩

/-! ## Reconnecting channel (`useWebSocket`, useWebSocket.ts) -/

structure ChannelConfig where
  reconnectAttempts : Nat
  deriving Repr, DecidableEq

/-- The channel state driven by the transport callbacks and timers:
`connected`/`reconnectCount` mirror the hook state, `reconnectScheduled`
mirrors `reconnectingRef` together with the pending reconnect timer,
`messageQueue` is `messageQueueRef`, and `transmitted` records every
message actually passed to the raw socket, in order. -/
structure ChannelState (M : Type) where
  connected : Bool
  reconnectCount : Nat
  reconnectScheduled : Bool
  messageQueue : List M
  transmitted : List M
  deriving Repr, DecidableEq

def initialChannelState (M : Type) : ChannelState M := ⟨false, 0, false, [], []⟩

/-- The discrete events driving the channel: the socket `onopen` and
`onclose` callbacks, the reconnect timer firing, and a `send` call. -/
inductive ChannelEvent (M : Type) where
  | wsOpen
  | wsClose
  | retryTimer
  | wsSend (m : M)

/-- One transition of the channel state machine, as in the source:
`onopen` resets `reconnectCount` to 0 and flushes the queue in FIFO
order; `onclose` schedules a reconnect only when none is pending and
`reconnectCount < reconnectAttempts`; the reconnect timer increments
`reconnectCount`, clears the pending flag and re-attempts the
connection; `send` transmits when open and queues otherwise. -/
def channelStep {M : Type} (cfg : ChannelConfig) (s : ChannelState M) :
    ChannelEvent M → ChannelState M
  | .wsOpen =>
    ⟨true, 0, s.reconnectScheduled, [], s.transmitted ++ s.messageQueue⟩
  | .wsClose =>
    if s.reconnectScheduled = false ∧
        s.reconnectCount < cfg.reconnectAttempts then
      ⟨false, s.reconnectCount, true, s.messageQueue, s.transmitted⟩
    else
      ⟨false, s.reconnectCount, s.reconnectScheduled, s.messageQueue,
       s.transmitted⟩
  | .retryTimer =>
    if s.reconnectScheduled then
      ⟨s.connected, s.reconnectCount + 1, false, s.messageQueue,
       s.transmitted⟩
    else s
  | .wsSend m =>
    if s.connected then
      ⟨s.connected, s.reconnectCount, s.reconnectScheduled, s.messageQueue,
       s.transmitted ++ [m]⟩
    else
      ⟨s.connected, s.reconnectCount, s.reconnectScheduled,
       s.messageQueue ++ [m], s.transmitted⟩

def runChannel {M : Type} (cfg : ChannelConfig)
    (events : List (ChannelEvent M)) (s : ChannelState M) : ChannelState M :=
  events.foldl (channelStep cfg) s

/-- The reconnect bookkeeping invariant: the count never exceeds the
configured bound, and a scheduled reconnect implies the count is still
strictly below it. -/
def ChannelInv {M : Type} (cfg : ChannelConfig) (s : ChannelState M) : Prop :=
  s.reconnectCount ≤ cfg.reconnectAttempts ∧
  (s.reconnectScheduled = true →
    s.reconnectCount < cfg.reconnectAttempts)

theorem channelStep_inv {M : Type} (cfg : ChannelConfig)
    (s : ChannelState M) (ev : ChannelEvent M) (h : ChannelInv cfg s) :
    ChannelInv cfg (channelStep cfg s ev) := by
  obtain ⟨h1, h2⟩ := h
  cases ev with
  | wsOpen =>
    constructor
    · show (0 : Nat) ≤ cfg.reconnectAttempts
      omega
    · intro hs
      have hs' : s.reconnectScheduled = true := hs
      have := h2 hs'
      show (0 : Nat) < cfg.reconnectAttempts
      omega
  | wsClose =>
    by_cases hc : s.reconnectScheduled = false ∧
        s.reconnectCount < cfg.reconnectAttempts
    · rw [channelStep, if_pos hc]
      exact ⟨h1, fun _ => hc.2⟩
    · rw [channelStep, if_neg hc]
      exact ⟨h1, h2⟩
  | retryTimer =>
    by_cases hc : s.reconnectScheduled = true
    · rw [channelStep, if_pos hc]
      have := h2 hc
      constructor
      · show s.reconnectCount + 1 ≤ cfg.reconnectAttempts
        omega
      · intro hs
        exact absurd hs (by simp)
    · rw [channelStep, if_neg hc]
      exact ⟨h1, h2⟩
  | wsSend m =>
    by_cases hc : s.connected = true
    · rw [channelStep, if_pos hc]
      exact ⟨h1, h2⟩
    · rw [channelStep, if_neg hc]
      exact ⟨h1, h2⟩

theorem runChannel_inv {M : Type} (cfg : ChannelConfig)
    (events : List (ChannelEvent M)) (s : ChannelState M)
    (h : ChannelInv cfg s) : ChannelInv cfg (runChannel cfg events s) := by
  induction events generalizing s with
  | nil => exact h
  | cons ev t ih =>
    simpa [runChannel, List.foldl_cons] using
      ih (channelStep cfg s ev) (channelStep_inv cfg s ev h)

/-- C8: starting from the initial channel state, `reconnectCount` never
exceeds `reconnectAttempts` in any reachable state; once the count has
reached the bound, a further `onclose` schedules no reconnect; and a
successful transition to open resets the count to 0. -/
theorem claim_C8_reconnect_ceiling (M : Type) (cfg : ChannelConfig) :
    (∀ events : List (ChannelEvent M),
      (runChannel cfg events (initialChannelState M)).reconnectCount
        ≤ cfg.reconnectAttempts) ∧
    (∀ s : ChannelState M, ¬ s.reconnectCount < cfg.reconnectAttempts →
      (channelStep cfg s .wsClose).reconnectScheduled
        = s.reconnectScheduled) ∧
    (∀ s : ChannelState M,
      (channelStep cfg s .wsOpen).reconnectCount = 0) := by
  refine ⟨?_, ?_, fun s => rfl⟩
  · intro events
    exact (runChannel_inv cfg events (initialChannelState M)
      ⟨Nat.zero_le _, by simp [initialChannelState]⟩).1
  · intro s hge
    rw [channelStep, if_neg (fun hc => hge hc.2)]

/-- Witness for C8 with `reconnectAttempts = 3`: a trace of seven failed
connections performs exactly three scheduled retries and then stops,
leaving `reconnectCount = 3`; a close at the ceiling schedules nothing;
an open resets the count. -/
theorem claim_C8_reconnect_ceiling_witness :
    (runChannel ⟨3⟩ [.wsClose, .retryTimer, .wsClose, .retryTimer, .wsClose,
        .retryTimer, .wsClose, .wsClose, .retryTimer]
      (initialChannelState Nat)).reconnectCount ≤ 3 ∧
    (channelStep ⟨3⟩ (⟨false, 3, false, [], []⟩ : ChannelState Nat)
        .wsClose).reconnectScheduled = false ∧
    (channelStep ⟨3⟩ (⟨false, 2, true, [], []⟩ : ChannelState Nat)
        .wsOpen).reconnectCount = 0 :=
  ⟨(claim_C8_reconnect_ceiling Nat ⟨3⟩).1 _,
   (claim_C8_reconnect_ceiling Nat ⟨3⟩).2.1 _ (by decide),
   (claim_C8_reconnect_ceiling Nat ⟨3⟩).2.2 _⟩

/-- C9: a message sent while the channel is not open is appended to the
outbound queue (not transmitted and not dropped); on the next transition
to open the whole queue — that message included — is flushed to the
socket in FIFO order, before any message sent after the transition. -/
theorem claim_C9_send_fifo {M : Type} (cfg : ChannelConfig)
    (s : ChannelState M) (m m' : M) (h : s.connected = false) :
    (channelStep cfg s (.wsSend m)).messageQueue = s.messageQueue ++ [m] ∧
    (channelStep cfg s (.wsSend m)).transmitted = s.transmitted ∧
    (channelStep cfg (channelStep cfg s (.wsSend m)) .wsOpen).transmitted
      = s.transmitted ++ s.messageQueue ++ [m] ∧
    (channelStep cfg (channelStep cfg (channelStep cfg s (.wsSend m))
        .wsOpen) (.wsSend m')).transmitted
      = s.transmitted ++ s.messageQueue ++ [m] ++ [m'] := by
  have hc : ¬ s.connected = true := by simp [h]
  have hsend : channelStep cfg s (.wsSend m)
      = ⟨s.connected, s.reconnectCount, s.reconnectScheduled,
         s.messageQueue ++ [m], s.transmitted⟩ := by
    simp only [channelStep]
    rw [if_neg hc]
  have hopen : channelStep cfg (⟨s.connected, s.reconnectCount,
      s.reconnectScheduled, s.messageQueue ++ [m], s.transmitted⟩ :
      ChannelState M) .wsOpen
      = ⟨true, 0, s.reconnectScheduled, [],
         s.transmitted ++ (s.messageQueue ++ [m])⟩ := rfl
  have hsend2 : channelStep cfg (⟨true, 0, s.reconnectScheduled, [],
      s.transmitted ++ (s.messageQueue ++ [m])⟩ : ChannelState M)
      (.wsSend m')
      = ⟨true, 0, s.reconnectScheduled, [],
         (s.transmitted ++ (s.messageQueue ++ [m])) ++ [m']⟩ := by
    simp only [channelStep]
    rw [if_pos trivial]
  refine ⟨by rw [hsend], by rw [hsend], ?_, ?_⟩
  · rw [hsend, hopen]
    simp [List.append_assoc]
  · rw [hsend, hopen, hsend2]
    simp [List.append_assoc]

/-- Witness for C9: a concrete queued message is flushed before a message
sent after the reconnection. -/
theorem claim_C9_send_fifo_witness :
    (channelStep ⟨3⟩ (⟨false, 0, false, [7], [5]⟩ : ChannelState Nat)
        (.wsSend 8)).messageQueue = [7, 8] ∧
    (channelStep ⟨3⟩ (channelStep ⟨3⟩ (channelStep ⟨3⟩
        (⟨false, 0, false, [7], [5]⟩ : ChannelState Nat) (.wsSend 8))
        .wsOpen) (.wsSend 9)).transmitted = [5, 7, 8, 9] := by
  refine ⟨(claim_C9_send_fifo ⟨3⟩ _ 8 9 rfl).1, ?_⟩
  rw [(claim_C9_send_fifo ⟨3⟩ (⟨false, 0, false, [7], [5]⟩ : ChannelState Nat)
    8 9 rfl).2.2.2]
  decide

end Spec2Proof
